import Mathlib

/-!
Shallow embedding of the Java metrics analyzer (`scripts/java_analyzer.py`).

The script walks a directory of Java files, parses each file with JavaParser,
and for every non-interface class declaration or record declaration computes
the metrics LOC, CBO, RFC, NOM, WMC, LCOM; after all files are processed it
computes DIT and NOC from the accumulated inheritance and children maps, and
optionally aggregates all per-class records.

Embedding conventions:
- Python `dict` (insertion ordered, assignment overwrites in place) is an
  association list with `dictInsert` / `dictLookup`; `defaultdict(list)` is
  an association list read through `childLookup` with default `[]`.
- The JavaParser AST is taken as input in normalized form: a `TypeDecl` is a
  class/record/other top-level declaration, a method is its optional body,
  a body carries its control-statement counts, call expressions (with their
  optional receiver scope text) and the names occurring in field-access and
  name expressions.  This mirrors exactly the accessors the script uses.
- Python strings are Lean `String`s; `str.splitlines`, `str.strip` and
  `str.startswith` are re-implemented over `String.data` (`splitLines`,
  `pyStrip`, `lineCounted`) because the script only ever feeds them newline
  separated source text.
- The unbounded `while` loop of `calculate_DIT` is embedded with explicit
  fuel: `none` means the loop has not exited within `fuel` iterations, so
  `∀ fuel, ... = none` states that the loop runs forever.
- Python truthiness on an optional string (`if superclass:`,
  `while inheritance_map.get(cls):`) is `some s` with `s ≠ ""`.
-/

namespace JavaAnalyzer

/-- Python `dict` lookup on an insertion-ordered association list. -/
def dictLookup {α : Type} : List (String × α) → String → Option α
  | [], _ => none
  | (k', v) :: rest, k => if k' = k then some v else dictLookup rest k

/-- Python `dict` assignment: overwrite in place if the key exists, else append. -/
def dictInsert {α : Type} : List (String × α) → String → α → List (String × α)
  | [], k, v => [(k, v)]
  | (k', v') :: rest, k, v =>
    if k' = k then (k, v) :: rest else (k', v') :: dictInsert rest k v

/-- `defaultdict(list)` read: a missing key yields the empty list. -/
def childLookup (m : List (String × List String)) (k : String) : List String :=
  (dictLookup m k).getD []

/-- `children_map[superclass].append(name)` on a `defaultdict(list)`. -/
def childAppend (m : List (String × List String)) (k : String) (v : String) :
    List (String × List String) :=
  dictInsert m k (childLookup m k ++ [v])

/-- Python `str.splitlines` restricted to the newline character, over the
character list of the string (no trailing empty line for a trailing `\n`). -/
def splitLines : List Char → List (List Char)
  | [] => []
  | c :: rest =>
    if c = '\n' then [] :: splitLines rest
    else
      match splitLines rest with
      | [] => [[c]]
      | l :: ls => (c :: l) :: ls

/-- The ASCII whitespace stripped by Python `str.strip()`. -/
def isSpaceChar (c : Char) : Bool :=
  c = ' ' || c = '\t' || c = '\n' || c = '\r' || c = '\x0b' || c = '\x0c'

/-- Python `line.strip()`. -/
def pyStrip (l : List Char) : List Char :=
  ((l.dropWhile isSpaceChar).reverse.dropWhile isSpaceChar).reverse

/-- The filter of `calculate_LOC`:
`line.strip() and not line.strip().startswith("//")`. -/
def lineCounted (line : List Char) : Bool :=
  !(pyStrip line).isEmpty &&
    !(match pyStrip line with
      | '/' :: '/' :: _ => true
      | _ => false)

/-- `calculate_LOC(code)`: number of non-empty lines not starting with `//`.
Note the script applies this to the text of the whole file. -/
def calculate_LOC (code : String) : Nat :=
  ((splitLines code.data).filter lineCounted).length

/-- A `MethodCallExpr`: its optional receiver scope, as text
(`str(scope.toString())`); `none` when `call.getScope()` is empty. -/
structure CallExpr where
  scope : Option String
  deriving DecidableEq

/-- The parts of a method body the script reads via `findAll`. -/
structure MethodBody where
  ifCount : Nat
  forCount : Nat
  whileCount : Nat
  switchCount : Nat
  calls : List CallExpr
  fieldAccessNames : List String
  nameExprNames : List String
  deriving DecidableEq

/-- A declared method; `method.getBody()` is empty for abstract/native methods. -/
structure MethodDecl where
  body : Option MethodBody
  deriving DecidableEq

/-- The normalized class or record declaration (`cid`): the name of the first
variable of each field declaration, and the declared methods. -/
structure Cid where
  fieldNames : List String
  methods : List MethodDecl
  deriving DecidableEq

/-- `body.findAll(MethodCallExpr)` of a method, empty when there is no body. -/
def methodCalls (m : MethodDecl) : List CallExpr :=
  match m.body with
  | none => []
  | some b => b.calls

/-- `calculate_NOM(cid)`: `cid.getMethods().size()`. -/
def calculate_NOM (cid : Cid) : Nat :=
  cid.methods.length

/-- Cyclomatic complexity of one method inside `calculate_WMC`:
`1` plus the number of if/for/while/switch statements of the body. -/
def methodComplexity (m : MethodDecl) : Nat :=
  match m.body with
  | none => 1
  | some b => 1 + b.ifCount + b.forCount + b.whileCount + b.switchCount

/-- `calculate_WMC(cid)`: sum of the per-method complexities. -/
def calculate_WMC (cid : Cid) : Nat :=
  cid.methods.foldl (fun wmc m => wmc + methodComplexity m) 0

/-- `calculate_RFC(cid)`: `methods.size()` plus the number of call
expressions found in each method body. -/
def calculate_RFC (cid : Cid) : Nat :=
  cid.methods.foldl (fun rfc m => rfc + (methodCalls m).length) cid.methods.length

/-- Python `set.add` on an insertion-ordered set. -/
def pySetAdd (s : List String) (x : String) : List String :=
  if x ∈ s then s else s ++ [x]

/-- The inner loop of `calculate_CBO`: add the scope text of a call to the
set of called classes when `call.getScope()` is present. -/
def addScope (acc : List String) (c : CallExpr) : List String :=
  match c.scope with
  | none => acc
  | some s => pySetAdd acc s

/-- One method's contribution to `called_classes` in `calculate_CBO`. -/
def addCallScopes (acc : List String) (m : MethodDecl) : List String :=
  (methodCalls m).foldl addScope acc

/-- `calculate_CBO(cid)`: number of distinct non-null call scopes. -/
def calculate_CBO (cid : Cid) : Nat :=
  (cid.methods.foldl addCallScopes []).length

/-- The accessed-field set of one method in `calculate_LCOM`: the names of
field-access and name expressions of the body that are declared fields,
collected into a set. -/
def methodAccessedFields (fields : List String) (m : MethodDecl) : List String :=
  match m.body with
  | none => []
  | some b =>
    ((b.fieldAccessNames ++ b.nameExprNames).filter
      (fun n => fields.contains n)).foldl pySetAdd []

/-- `method_field_access[i].intersection(method_field_access[j])` is non-empty. -/
def sharesField (a b : List String) : Bool :=
  a.any (fun x => b.contains x)

/-- The double loop of `calculate_LCOM` over index pairs `i < j`:
first component `P` (pairs with empty intersection), second `Q`
(pairs with non-empty intersection). -/
def countPairs : List (List String) → Nat × Nat
  | [] => (0, 0)
  | a :: rest =>
    let pq := countPairs rest
    ((rest.filter (fun b => !(sharesField a b))).length + pq.1,
     (rest.filter (fun b => sharesField a b)).length + pq.2)

/-- `calculate_LCOM(cid)`: `0` for fewer than two methods, else `max(P - Q, 0)`. -/
def calculate_LCOM (cid : Cid) : Int :=
  let fields := cid.fieldNames
  if cid.methods.length < 2 then 0
  else
    let mfa := cid.methods.map (methodAccessedFields fields)
    let pq := countPairs mfa
    max ((pq.1 : Int) - (pq.2 : Int)) 0

/-- All unordered pairs of list elements, in `i < j` order: the reference
enumeration the specification describes. -/
def allPairs {α : Type} : List α → List (α × α)
  | [] => []
  | a :: rest => rest.map (fun b => (a, b)) ++ allPairs rest

/-- Specification-side `Q`: count of unordered method pairs whose
accessed-field sets intersect. -/
def specSharingPairs (cid : Cid) : Nat :=
  ((allPairs (cid.methods.map (methodAccessedFields cid.fieldNames))).filter
    (fun ab => sharesField ab.1 ab.2)).length

/-- Specification-side `P`: count of unordered method pairs whose
accessed-field sets are disjoint. -/
def specNonSharingPairs (cid : Cid) : Nat :=
  ((allPairs (cid.methods.map (methodAccessedFields cid.fieldNames))).filter
    (fun ab => !(sharesField ab.1 ab.2))).length

/-- `calculate_DIT(cls, inheritance_map)`, with explicit fuel for the
unbounded `while inheritance_map.get(cls):` loop.  `some d` is the depth the
loop returns; `none` means the loop has not exited within `fuel` iterations.
An entry equal to the empty string is falsy in Python and exits the loop. -/
def calculate_DIT : Nat → String → List (String × String) → Option Nat
  | 0, _, _ => none
  | fuel + 1, cls, inheritance_map =>
    match dictLookup inheritance_map cls with
    | none => some 0
    | some s =>
      if s = "" then some 0
      else (calculate_DIT fuel s inheritance_map).map (fun d => d + 1)

/-- `calculate_NOC(cls, children_map)`: `len(children_map[cls])`. -/
def calculate_NOC (cls : String) (children_map : List (String × List String)) : Nat :=
  (childLookup children_map cls).length

/-- A normalized top-level type declaration of a compilation unit, as the
driver loop distinguishes them: a class-or-interface declaration (with its
`isInterface()` flag and the name of its first extended type, if any), a
record declaration, or any other kind (enum, annotation-like), which the
loop skips. -/
inductive TypeDecl : Type
  | classDecl (name : String) (interfaceFlag : Bool) (extendedType : Option String) (cid : Cid)
  | recordDecl (name : String) (cid : Cid)
  | otherDecl
  deriving DecidableEq

/-- The per-class entry stored into `class_info` during the parse phase. -/
structure ClassMetrics where
  LOC : Nat
  CBO : Nat
  RFC : Nat
  NOM : Nat
  WMC : Nat
  LCOM : Int
  Superclass : Option String
  deriving DecidableEq

/-- The metric computation block of the driver loop for one declaration. -/
def buildMetrics (code : String) (cid : Cid) (superclass : Option String) : ClassMetrics :=
  { LOC := calculate_LOC code, CBO := calculate_CBO cid, RFC := calculate_RFC cid,
    NOM := calculate_NOM cid, WMC := calculate_WMC cid, LCOM := calculate_LCOM cid,
    Superclass := superclass }

/-- The mutable state of `analyze_java_metrics` during the parse phase. -/
structure AnalyzerState where
  class_info : List (String × ClassMetrics)
  inheritance_map : List (String × String)
  children_map : List (String × List String)
  deriving DecidableEq

/-- `class_info = {}`, `inheritance_map = {}`, `children_map = defaultdict(list)`. -/
def initState : AnalyzerState :=
  { class_info := [], inheritance_map := [], children_map := [] }

/-- The recording block of the driver loop: update the inheritance and
children maps when the superclass is truthy, then store the metric record. -/
def recordClass (code : String) (st : AnalyzerState) (name : String)
    (superclass : Option String) (cid : Cid) : AnalyzerState :=
  let st1 :=
    match superclass with
    | some s =>
      if s = "" then st
      else { st with
        inheritance_map := dictInsert st.inheritance_map name s,
        children_map := childAppend st.children_map s name }
    | none => st
  { st1 with class_info := dictInsert st1.class_info name (buildMetrics code cid superclass) }

/-- The body of `for type_decl in cu.getTypes():`.  Interfaces and other
declaration kinds fall through to `continue`. -/
def processDecl (code : String) (st : AnalyzerState) : TypeDecl → AnalyzerState
  | .classDecl name interfaceFlag ext cid =>
    if interfaceFlag then st else recordClass code st name ext cid
  | .recordDecl name cid => recordClass code st name (some "java.lang.Record") cid
  | .otherDecl => st

/-- One input `.java` file: its raw text and the result of
`StaticJavaParser.parse(code)` (`none` when parsing raised, which the driver
catches, logs and skips). -/
structure SourceFile where
  code : String
  parsed : Option (List TypeDecl)
  deriving DecidableEq

/-- Processing of one file in the driver walk: a file that fails to parse is
skipped (`continue`), otherwise every top-level declaration is processed. -/
def processFile (st : AnalyzerState) (f : SourceFile) : AnalyzerState :=
  match f.parsed with
  | none => st
  | some decls => decls.foldl (processDecl f.code) st

/-- The complete parse phase of `analyze_java_metrics` over the discovered files. -/
def phase1 (files : List SourceFile) : AnalyzerState :=
  files.foldl processFile initState

/-- A per-class record after the graph-query phase added DIT and NOC.
`DIT = none` records that the DIT loop did not terminate within the fuel. -/
structure FinalRecord where
  metrics : ClassMetrics
  DIT : Option Nat
  NOC : Nat
  deriving DecidableEq

/-- The data returned by `analyze_java_metrics`: the `classes` mapping of the
emitted report, and the process exit status of the run. -/
structure AnalysisOutput where
  classes : List (String × FinalRecord)
  exit_status : Nat
  deriving DecidableEq

/-- `analyze_java_metrics`: parse phase over all files, then the graph-query
phase adds DIT and NOC to every entry of `class_info`.  The run returns
normally (exit status 0) regardless of individual parse failures, which the
per-file `except` block swallows. -/
def analyze_java_metrics (fuel : Nat) (files : List SourceFile) : AnalysisOutput :=
  let st := phase1 files
  { classes := st.class_info.map (fun p =>
      (p.1, { metrics := p.2,
              DIT := calculate_DIT fuel p.1 st.inheritance_map,
              NOC := calculate_NOC p.1 st.children_map })),
    exit_status := 0 }

/-- The `(code, type_decl)` pairs the driver processes, in order. -/
def fileDecls (f : SourceFile) : List (String × TypeDecl) :=
  match f.parsed with
  | none => []
  | some decls => decls.map (fun d => (f.code, d))

/-- The declaration stream of a whole run. -/
def declStream (files : List SourceFile) : List (String × TypeDecl) :=
  (files.map fileDecls).flatten

/-- Folding the parse-phase step over a declaration stream. -/
def streamFold (st : AnalyzerState) (l : List (String × TypeDecl)) : AnalyzerState :=
  l.foldl (fun st p => processDecl p.1 st p.2) st

/-- The `(name, superclass)` pair a declaration writes into the inheritance
and children maps, if any: interfaces and other declarations write nothing,
and so does a class without a truthy superclass. -/
def recordedEvent : TypeDecl → Option (String × String)
  | .classDecl name interfaceFlag ext _ =>
    if interfaceFlag then none
    else
      match ext with
      | some s => if s = "" then none else some (name, s)
      | none => none
  | .recordDecl name _ => some (name, "java.lang.Record")
  | .otherDecl => none

/-- All inheritance-map writes of a declaration stream, in order. -/
def recordedEvents (l : List (String × TypeDecl)) : List (String × String) :=
  l.filterMap (fun p => recordedEvent p.2)

/-- The name under which a declaration is stored into `class_info`
(`none` for the skipped kinds). -/
def declaredName : TypeDecl → Option String
  | .classDecl name interfaceFlag _ _ => if interfaceFlag then none else some name
  | .recordDecl name _ => some name
  | .otherDecl => none

/-- Specification-side description of the inheritance map: the superclass
written by the last declaration of the stream that records one for `n`. -/
def lastRecordedSuper : List (String × TypeDecl) → String → Option String
  | [], _ => none
  | p :: rest, n =>
    match lastRecordedSuper rest n with
    | some s => some s
    | none =>
      match recordedEvent p.2 with
      | some q => if q.1 = n then some q.2 else none
      | none => none

/-- The metric record a single declaration would store, if it is processed. -/
def buildDeclMetrics (code : String) : TypeDecl → Option ClassMetrics
  | .classDecl _ interfaceFlag ext cid =>
    if interfaceFlag then none else some (buildMetrics code cid ext)
  | .recordDecl _ cid => some (buildMetrics code cid (some "java.lang.Record"))
  | .otherDecl => none

/-- Specification-side description of `class_info`: the record stored by the
last processed declaration of the stream named `n`. -/
def lastClassMetrics : List (String × TypeDecl) → String → Option ClassMetrics
  | [], _ => none
  | p :: rest, n =>
    match lastClassMetrics rest n with
    | some r => some r
    | none =>
      if declaredName p.2 = some n then buildDeclMetrics p.1 p.2 else none

/-- Decidable test: the declaration is a record declaration named `n`. -/
def isRecordNamed (n : String) : TypeDecl → Bool
  | .recordDecl m _ => m = n
  | _ => false

/-- The per-class metric tuple as `aggregate_metrics` consumes it
(after the graph-query phase filled in DIT and NOC). -/
structure MetricRecord where
  LOC : Nat
  CBO : Nat
  RFC : Nat
  NOM : Nat
  WMC : Nat
  LCOM : Int
  DIT : Nat
  NOC : Nat
  deriving DecidableEq

/-- The project-level summary dictionary of `aggregate_metrics`.  Averages
are Python float divisions, embedded as exact rational division. -/
structure AggregateRecord where
  total_classes : Nat
  sum_LOC : Nat
  avg_LOC : ℚ
  sum_CBO : Nat
  avg_CBO : ℚ
  sum_RFC : Nat
  avg_RFC : ℚ
  sum_NOM : Nat
  avg_NOM : ℚ
  sum_WMC : Nat
  avg_WMC : ℚ
  sum_LCOM : Int
  avg_LCOM : ℚ
  max_DIT : Nat
  max_NOC : Nat
  deriving DecidableEq

/-- The initial `agg` dictionary of `aggregate_metrics`. -/
def initAgg (n : Nat) : AggregateRecord :=
  { total_classes := n,
    sum_LOC := 0, avg_LOC := 0, sum_CBO := 0, avg_CBO := 0,
    sum_RFC := 0, avg_RFC := 0, sum_NOM := 0, avg_NOM := 0,
    sum_WMC := 0, avg_WMC := 0, sum_LCOM := 0, avg_LCOM := 0,
    max_DIT := 0, max_NOC := 0 }

/-- The sum/max accumulation loop body of `aggregate_metrics`. -/
def addMetrics (agg : AggregateRecord) (m : MetricRecord) : AggregateRecord :=
  { agg with
    sum_LOC := agg.sum_LOC + m.LOC,
    sum_CBO := agg.sum_CBO + m.CBO,
    sum_RFC := agg.sum_RFC + m.RFC,
    sum_NOM := agg.sum_NOM + m.NOM,
    sum_WMC := agg.sum_WMC + m.WMC,
    sum_LCOM := agg.sum_LCOM + m.LCOM,
    max_DIT := max agg.max_DIT m.DIT,
    max_NOC := max agg.max_NOC m.NOC }

/-- `aggregate_metrics(class_info)`: early return of the all-zero summary
when there are no classes (no division happens on that path), otherwise
accumulate sums and maxima and divide each sum by the class count. -/
def aggregate_metrics (class_info : List MetricRecord) : AggregateRecord :=
  let agg := initAgg class_info.length
  if agg.total_classes = 0 then agg
  else
    let agg := class_info.foldl addMetrics agg
    { agg with
      avg_LOC := (agg.sum_LOC : ℚ) / (agg.total_classes : ℚ),
      avg_CBO := (agg.sum_CBO : ℚ) / (agg.total_classes : ℚ),
      avg_RFC := (agg.sum_RFC : ℚ) / (agg.total_classes : ℚ),
      avg_NOM := (agg.sum_NOM : ℚ) / (agg.total_classes : ℚ),
      avg_WMC := (agg.sum_WMC : ℚ) / (agg.total_classes : ℚ),
      avg_LCOM := (agg.sum_LCOM : ℚ) / (agg.total_classes : ℚ) }

/-! Concrete inputs used by counterexamples and witnesses. -/

/-- A class body with no fields and no methods. -/
def emptyCid : Cid :=
  { fieldNames := [], methods := [] }

/-- A malformed inheritance map with a two-cycle reachable from `A`. -/
def cycMap : List (String × String) :=
  [("A", "B"), ("B", "A")]

/-- A single file whose only line declares class `A` with no members. -/
def fileA : SourceFile :=
  { code := "class A \x7b\x7d",
    parsed := some [.classDecl "A" false none emptyCid] }

/-- A two-line file declaring classes `A` and `B`, one line each. -/
def fileAB : SourceFile :=
  { code := "class A \x7b\x7d\nclass B \x7b\x7d",
    parsed := some [.classDecl "A" false none emptyCid,
                    .classDecl "B" false none emptyCid] }

/-- Two class declarations sharing the name `A` with different superclasses. -/
def dupFilesC3 : List SourceFile :=
  [{ code := "",
     parsed := some [.classDecl "A" false (some "B") emptyCid,
                     .classDecl "A" false (some "C") emptyCid] }]

/-- Two class declarations sharing the name `X` with different superclasses. -/
def dupFilesC4 : List SourceFile :=
  [{ code := "",
     parsed := some [.classDecl "X" false (some "Y") emptyCid,
                     .classDecl "X" false (some "Z") emptyCid] }]

/-- A record `N`, a class reusing the name `N`, and its superclass chain. -/
def dupFilesC10 : List SourceFile :=
  [{ code := "",
     parsed := some [.recordDecl "N" emptyCid,
                     .classDecl "N" false (some "A") emptyCid,
                     .classDecl "A" false (some "B") emptyCid] }]

/-- A file whose text cannot be parsed. -/
def failFile : SourceFile :=
  { code := "class \x7b oops", parsed := none }

/-- A well-formed single-class file. -/
def okFile : SourceFile :=
  { code := "class D \x7b\x7d",
    parsed := some [.classDecl "D" false none emptyCid] }

/-- A single-file project declaring only the record `R`. -/
def recFiles : List SourceFile :=
  [{ code := "record R() \x7b\x7d",
     parsed := some [.recordDecl "R" emptyCid] }]

/-- A class with a single method. -/
def smallCid : Cid :=
  { fieldNames := ["x"],
    methods := [{ body := some { ifCount := 0, forCount := 0, whileCount := 0,
                                 switchCount := 0, calls := [],
                                 fieldAccessNames := [], nameExprNames := ["x"] } }] }

/-- A class with two fields and three methods: the pairs (m1,m3) share `x`,
the pairs (m1,m2) and (m2,m3) share nothing. -/
def bigCid : Cid :=
  { fieldNames := ["x", "y"],
    methods :=
      [{ body := some { ifCount := 0, forCount := 0, whileCount := 0,
                        switchCount := 0, calls := [],
                        fieldAccessNames := ["x"], nameExprNames := [] } },
       { body := some { ifCount := 0, forCount := 0, whileCount := 0,
                        switchCount := 0, calls := [],
                        fieldAccessNames := [], nameExprNames := ["y"] } },
       { body := some { ifCount := 0, forCount := 0, whileCount := 0,
                        switchCount := 0, calls := [],
                        fieldAccessNames := ["x"], nameExprNames := [] } }] }

/-- A project with a single class declaration `A extends B`. -/
def singleExtFiles : List SourceFile :=
  [{ code := "",
     parsed := some [.classDecl "A" false (some "B") emptyCid] }]

/-- A run over one unparsable file and one good file. -/
def c7Files : List SourceFile :=
  [failFile, okFile]

/-- Three metric records with LOC 10, 20, 30 (the aggregate scenario). -/
def threeRecords : List MetricRecord :=
  [{ LOC := 10, CBO := 0, RFC := 0, NOM := 0, WMC := 0, LCOM := 0, DIT := 0, NOC := 0 },
   { LOC := 20, CBO := 1, RFC := 2, NOM := 1, WMC := 1, LCOM := 0, DIT := 1, NOC := 0 },
   { LOC := 30, CBO := 2, RFC := 4, NOM := 2, WMC := 3, LCOM := 1, DIT := 2, NOC := 1 }]

/-! ## Basic lemmas about the dictionary embedding -/

theorem dictLookup_insert {α : Type} (m : List (String × α)) (k c : String) (v : α) :
    dictLookup (dictInsert m k v) c = if k = c then some v else dictLookup m c := by
  induction m with
  | nil => simp [dictInsert, dictLookup]
  | cons p rest ih =>
    obtain ⟨k', v'⟩ := p
    by_cases hk : k' = k
    · subst hk
      by_cases hc : k' = c <;> simp [dictInsert, dictLookup, hc]
    · by_cases hc : k' = c
      · subst hc
        have hkc : ¬ k = k' := fun h => hk h.symm
        simp [dictInsert, dictLookup, hk, hkc]
      · simp [dictInsert, dictLookup, hk, hc, ih]

theorem childLookup_append (m : List (String × List String)) (k c v : String) :
    childLookup (childAppend m k v) c =
      if k = c then childLookup m c ++ [v] else childLookup m c := by
  unfold childAppend childLookup
  rw [dictLookup_insert]
  by_cases h : k = c
  · subst h
    simp
  · simp [h]

/-! ## C1: termination of the DIT walk -/

/-- C1: the claim says the upward DIT walk stops within a bound even when the
inheritance map contains a cycle reachable from the start class.  The code
has no such bound: on the cyclic map `{A ↦ B, B ↦ A}` the loop of
`calculate_DIT` never exits — for every fuel the embedding yields `none`,
so the Python loop runs forever.  The claim is correct about the intended
behaviour (the spec demands a `CycleDetected` bound) and the code violates
it: a code bug. -/
theorem C1_dit_cycle_diverges :
    ∀ fuel : Nat, calculate_DIT fuel "A" cycMap = none := by
  have key : ∀ fuel : Nat,
      calculate_DIT fuel "A" cycMap = none ∧ calculate_DIT fuel "B" cycMap = none := by
    intro fuel
    induction fuel with
    | zero => exact ⟨rfl, rfl⟩
    | succ n ih =>
      have hA : dictLookup cycMap "A" = some "B" := by decide
      have hB : dictLookup cycMap "B" = some "A" := by decide
      constructor
      · simp only [calculate_DIT, hA]
        have : ("B" : String) = "" ↔ False := by simp
        simp [this, ih.2]
      · simp only [calculate_DIT, hB]
        have : ("A" : String) = "" ↔ False := by simp
        simp [this, ih.1]
  exact fun fuel => (key fuel).1

/-! ## C2: what text LOC is computed from -/

/-- C2 counterexample: the claim says the LOC recorded for a class counts
only the lines of that class's own declaration text.  In the code,
`calculate_LOC` is applied to the text of the whole file: in a two-line file
declaring classes `A` and `B` on one line each, the record stored for `A`
carries LOC 2, while `A`'s own declaration text has a single counted line. -/
theorem C2_loc_counterexample :
    (dictLookup (analyze_java_metrics 10 [fileAB]).classes "A").map
      (fun r => r.metrics.LOC) = some 2 ∧
    calculate_LOC "class A \x7b\x7d" = 1 ∧ (2 : Nat) ≠ 1 := by decide

/-- C2 amended: the LOC stored for a class is `calculate_LOC` of the text of
the whole file containing its declaration (every class of a file receives
the file's count of non-empty, non-`//` lines); in particular a single file
whose only line declares class `A` with no fields and no methods yields
LOC 1 for `A`. -/
theorem C2_loc_whole_file :
    (∀ (code : String) (st : AnalyzerState) (name : String)
        (superclass : Option String) (cid : Cid),
      (dictLookup (recordClass code st name superclass cid).class_info name).map
        (fun r => r.LOC) = some (calculate_LOC code)) ∧
    (dictLookup (analyze_java_metrics 10 [fileA]).classes "A").map
      (fun r => r.metrics.LOC) = some 1 := by
  constructor
  · intro code st name superclass cid
    unfold recordClass
    rw [dictLookup_insert]
    simp [buildMetrics]
  · decide

/-! ## C5: the LCOM pair count -/

theorem countPairs_eq (l : List (List String)) :
    countPairs l =
      (((allPairs l).filter (fun ab => !(sharesField ab.1 ab.2))).length,
       ((allPairs l).filter (fun ab => sharesField ab.1 ab.2)).length) := by
  induction l with
  | nil => rfl
  | cons a rest ih =>
    simp only [countPairs, allPairs, List.filter_append, List.length_append,
      List.filter_map, List.length_map, Function.comp_def, ih]

theorem allPairs_length {α : Type} (l : List α) :
    (allPairs l).length = l.length * (l.length - 1) / 2 := by
  induction l with
  | nil => simp [allPairs]
  | cons a rest ih =>
    simp only [allPairs, List.length_append, List.length_map, List.length_cons, ih]
    generalize rest.length = k
    cases k with
    | zero => rfl
    | succ n =>
      have h : (n + 1 + 1) * (n + 1) = (n + 1) * n + 2 * (n + 1) := by ring
      simp only [Nat.add_sub_cancel]
      rw [h, Nat.add_mul_div_left _ _ (by norm_num : 0 < 2)]
      omega

/-- C5: for a class with method count `n`, `calculate_LCOM` returns `0` when
`n < 2` and otherwise `max(P - Q, 0)`, where `Q` counts the unordered method
pairs with intersecting accessed-field sets and `P` those with disjoint
sets; moreover `P + Q = n*(n-1)/2` and the result is never negative. -/
theorem C5_lcom :
    ∀ cid : Cid,
      (cid.methods.length < 2 → calculate_LCOM cid = 0) ∧
      (2 ≤ cid.methods.length →
        calculate_LCOM cid =
          max ((specNonSharingPairs cid : Int) - (specSharingPairs cid : Int)) 0) ∧
      specNonSharingPairs cid + specSharingPairs cid =
        cid.methods.length * (cid.methods.length - 1) / 2 ∧
      0 ≤ calculate_LCOM cid := by
  intro cid
  have hPQ : specNonSharingPairs cid + specSharingPairs cid =
      cid.methods.length * (cid.methods.length - 1) / 2 := by
    unfold specNonSharingPairs specSharingPairs
    rw [Nat.add_comm, ← List.length_eq_length_filter_add, allPairs_length, List.length_map]
  refine ⟨?_, ?_, hPQ, ?_⟩
  · intro h
    simp [calculate_LCOM, h]
  · intro h
    have h2 : ¬ cid.methods.length < 2 := by omega
    simp only [calculate_LCOM, h2, if_false]
    rw [countPairs_eq]
    simp only [specNonSharingPairs, specSharingPairs]
  · by_cases h : cid.methods.length < 2
    · simp [calculate_LCOM, h]
    · simp only [calculate_LCOM, h, if_false]
      exact le_max_right _ _

/-- C5 witness: the single-method class has LCOM 0, and for the three-method
class LCOM equals `max(P - Q, 0)` over its unordered method pairs. -/
theorem C5_lcom_witness :
    calculate_LCOM smallCid = 0 ∧
    calculate_LCOM bigCid =
      max ((specNonSharingPairs bigCid : Int) - (specSharingPairs bigCid : Int)) 0 :=
  ⟨(C5_lcom smallCid).1 (by decide), (C5_lcom bigCid).2.1 (by decide)⟩

/-! ## C6: CBO is bounded by the call count -/

theorem pySetAdd_length (s : List String) (x : String) :
    (pySetAdd s x).length ≤ s.length + 1 := by
  unfold pySetAdd
  by_cases h : x ∈ s <;> simp [h]

theorem foldl_addScope_length (calls : List CallExpr) :
    ∀ acc : List String, (calls.foldl addScope acc).length ≤ acc.length + calls.length := by
  induction calls with
  | nil => intro acc; simp
  | cons c rest ih =>
    intro acc
    have step : (addScope acc c).length ≤ acc.length + 1 := by
      unfold addScope
      cases c.scope with
      | none => simp
      | some s => simpa using pySetAdd_length acc s
    simp only [List.foldl_cons, List.length_cons]
    have h1 := ih (addScope acc c)
    omega

theorem foldl_addCallScopes_length (ms : List MethodDecl) :
    ∀ acc : List String,
      (ms.foldl addCallScopes acc).length ≤
        acc.length + (ms.map (fun m => (methodCalls m).length)).sum := by
  induction ms with
  | nil => intro acc; simp
  | cons m rest ih =>
    intro acc
    simp only [List.foldl_cons, List.map_cons, List.sum_cons]
    have h1 := ih (addCallScopes acc m)
    have h2 : (addCallScopes acc m).length ≤ acc.length + (methodCalls m).length :=
      foldl_addScope_length _ _
    omega

theorem foldl_add_eq {α : Type} (f : α → Nat) (l : List α) :
    ∀ a : Nat, l.foldl (fun r x => r + f x) a = a + (l.map f).sum := by
  induction l with
  | nil => intro a; simp
  | cons x rest ih =>
    intro a
    simp only [List.foldl_cons, List.map_cons, List.sum_cons, ih]
    omega

/-- C6: for every class, the number of distinct non-null call scopes
(`calculate_CBO`) never exceeds the total number of call expressions, which
is exactly `calculate_RFC - calculate_NOM`. -/
theorem C6_cbo_le_rfc_minus_nom :
    ∀ cid : Cid, calculate_CBO cid ≤ calculate_RFC cid - calculate_NOM cid := by
  intro cid
  have hrfc : calculate_RFC cid =
      calculate_NOM cid + (cid.methods.map (fun m => (methodCalls m).length)).sum := by
    unfold calculate_RFC calculate_NOM
    exact foldl_add_eq (fun m => (methodCalls m).length) cid.methods cid.methods.length
  have hcbo := foldl_addCallScopes_length cid.methods []
  simp only [List.length_nil, Nat.zero_add] at hcbo
  unfold calculate_CBO
  omega

/-! ## C8: the aggregator -/

theorem addMetrics_total (l : List MetricRecord) :
    ∀ a, (l.foldl addMetrics a).total_classes = a.total_classes := by
  induction l with
  | nil => intro a; rfl
  | cons m rest ih => intro a; simp only [List.foldl_cons, ih]; rfl

theorem addMetrics_sum_LOC (l : List MetricRecord) :
    ∀ a, (l.foldl addMetrics a).sum_LOC = a.sum_LOC + (l.map (fun m => m.LOC)).sum := by
  induction l with
  | nil => intro a; simp
  | cons m rest ih =>
    intro a
    simp only [List.foldl_cons, List.map_cons, List.sum_cons, ih, addMetrics]
    omega

theorem addMetrics_sum_CBO (l : List MetricRecord) :
    ∀ a, (l.foldl addMetrics a).sum_CBO = a.sum_CBO + (l.map (fun m => m.CBO)).sum := by
  induction l with
  | nil => intro a; simp
  | cons m rest ih =>
    intro a
    simp only [List.foldl_cons, List.map_cons, List.sum_cons, ih, addMetrics]
    omega

theorem addMetrics_sum_RFC (l : List MetricRecord) :
    ∀ a, (l.foldl addMetrics a).sum_RFC = a.sum_RFC + (l.map (fun m => m.RFC)).sum := by
  induction l with
  | nil => intro a; simp
  | cons m rest ih =>
    intro a
    simp only [List.foldl_cons, List.map_cons, List.sum_cons, ih, addMetrics]
    omega

theorem addMetrics_sum_NOM (l : List MetricRecord) :
    ∀ a, (l.foldl addMetrics a).sum_NOM = a.sum_NOM + (l.map (fun m => m.NOM)).sum := by
  induction l with
  | nil => intro a; simp
  | cons m rest ih =>
    intro a
    simp only [List.foldl_cons, List.map_cons, List.sum_cons, ih, addMetrics]
    omega

theorem addMetrics_sum_WMC (l : List MetricRecord) :
    ∀ a, (l.foldl addMetrics a).sum_WMC = a.sum_WMC + (l.map (fun m => m.WMC)).sum := by
  induction l with
  | nil => intro a; simp
  | cons m rest ih =>
    intro a
    simp only [List.foldl_cons, List.map_cons, List.sum_cons, ih, addMetrics]
    omega

theorem addMetrics_sum_LCOM (l : List MetricRecord) :
    ∀ a, (l.foldl addMetrics a).sum_LCOM = a.sum_LCOM + (l.map (fun m => m.LCOM)).sum := by
  induction l with
  | nil => intro a; simp
  | cons m rest ih =>
    intro a
    simp only [List.foldl_cons, List.map_cons, List.sum_cons, ih, addMetrics]
    omega

theorem addMetrics_max_DIT (l : List MetricRecord) :
    ∀ a, (l.foldl addMetrics a).max_DIT =
      max a.max_DIT ((l.map (fun m => m.DIT)).foldr max 0) := by
  induction l with
  | nil => intro a; simp
  | cons m rest ih =>
    intro a
    simp only [List.foldl_cons, List.map_cons, List.foldr_cons, ih, addMetrics]
    exact max_assoc _ _ _

theorem addMetrics_max_NOC (l : List MetricRecord) :
    ∀ a, (l.foldl addMetrics a).max_NOC =
      max a.max_NOC ((l.map (fun m => m.NOC)).foldr max 0) := by
  induction l with
  | nil => intro a; simp
  | cons m rest ih =>
    intro a
    simp only [List.foldl_cons, List.map_cons, List.foldr_cons, ih, addMetrics]
    exact max_assoc _ _ _

/-- C8: `aggregate_metrics` is total and well defined on every collection:
the empty collection returns the all-zero summary through the early-return
branch (no division happens), and a non-empty collection yields the sums,
the maxima, and each average as the corresponding sum divided by
`total_classes` (which equals the number of records). -/
theorem C8_aggregate :
    ∀ l : List MetricRecord,
      (l = [] → aggregate_metrics l = initAgg 0) ∧
      (l ≠ [] →
        (aggregate_metrics l).total_classes = l.length ∧
        ((aggregate_metrics l).sum_LOC = (l.map (fun m => m.LOC)).sum ∧
         (aggregate_metrics l).sum_CBO = (l.map (fun m => m.CBO)).sum ∧
         (aggregate_metrics l).sum_RFC = (l.map (fun m => m.RFC)).sum ∧
         (aggregate_metrics l).sum_NOM = (l.map (fun m => m.NOM)).sum ∧
         (aggregate_metrics l).sum_WMC = (l.map (fun m => m.WMC)).sum ∧
         (aggregate_metrics l).sum_LCOM = (l.map (fun m => m.LCOM)).sum) ∧
        ((aggregate_metrics l).max_DIT = (l.map (fun m => m.DIT)).foldr max 0 ∧
         (aggregate_metrics l).max_NOC = (l.map (fun m => m.NOC)).foldr max 0) ∧
        ((aggregate_metrics l).avg_LOC =
           ((aggregate_metrics l).sum_LOC : ℚ) / ((aggregate_metrics l).total_classes : ℚ) ∧
         (aggregate_metrics l).avg_CBO =
           ((aggregate_metrics l).sum_CBO : ℚ) / ((aggregate_metrics l).total_classes : ℚ) ∧
         (aggregate_metrics l).avg_RFC =
           ((aggregate_metrics l).sum_RFC : ℚ) / ((aggregate_metrics l).total_classes : ℚ) ∧
         (aggregate_metrics l).avg_NOM =
           ((aggregate_metrics l).sum_NOM : ℚ) / ((aggregate_metrics l).total_classes : ℚ) ∧
         (aggregate_metrics l).avg_WMC =
           ((aggregate_metrics l).sum_WMC : ℚ) / ((aggregate_metrics l).total_classes : ℚ) ∧
         (aggregate_metrics l).avg_LCOM =
           ((aggregate_metrics l).sum_LCOM : ℚ) / ((aggregate_metrics l).total_classes : ℚ))) := by
  intro l
  constructor
  · rintro rfl
    rfl
  · intro h
    have hlen : l.length ≠ 0 := by
      simpa [List.length_eq_zero] using h
    have hif : ¬ ((initAgg l.length).total_classes = 0) := by
      simpa [initAgg] using hlen
    simp only [aggregate_metrics, hif, if_false]
    refine ⟨?_, ⟨?_, ?_, ?_, ?_, ?_, ?_⟩, ⟨?_, ?_⟩, ?_, ?_, ?_, ?_, ?_, ?_⟩ <;>
      simp [addMetrics_total, addMetrics_sum_LOC, addMetrics_sum_CBO,
        addMetrics_sum_RFC, addMetrics_sum_NOM, addMetrics_sum_WMC,
        addMetrics_sum_LCOM, addMetrics_max_DIT, addMetrics_max_NOC, initAgg]

/-- C8 witness: the empty collection yields the all-zero summary, and the
aggregate scenario with LOC 10, 20, 30 yields sum 60 and average 60/3 = 20. -/
theorem C8_aggregate_witness :
    aggregate_metrics ([] : List MetricRecord) = initAgg 0 ∧
    (aggregate_metrics threeRecords).sum_LOC = 60 ∧
    (aggregate_metrics threeRecords).avg_LOC =
      ((aggregate_metrics threeRecords).sum_LOC : ℚ) /
        ((aggregate_metrics threeRecords).total_classes : ℚ) ∧
    (aggregate_metrics threeRecords).avg_LOC = 20 := by
  have h2 := (C8_aggregate threeRecords).2 (by decide)
  have hsum : (aggregate_metrics threeRecords).sum_LOC = 60 := by
    rw [h2.2.1.1]; decide
  have htot : (aggregate_metrics threeRecords).total_classes = 3 := h2.1
  have havg := h2.2.2.2.1
  refine ⟨(C8_aggregate []).1 rfl, hsum, havg, ?_⟩
  rw [havg, hsum, htot]
  norm_num

/-! ## The parse phase as a fold over the declaration stream -/

theorem foldl_processDecl_map (decls : List TypeDecl) (code : String) :
    ∀ st, decls.foldl (processDecl code) st =
      streamFold st (decls.map (fun d => (code, d))) := by
  induction decls with
  | nil => intro st; rfl
  | cons d rest ih =>
    intro st
    simp only [List.foldl_cons, List.map_cons, streamFold]
    exact ih _

theorem streamFold_append (l1 l2 : List (String × TypeDecl)) (st : AnalyzerState) :
    streamFold st (l1 ++ l2) = streamFold (streamFold st l1) l2 := by
  simp [streamFold, List.foldl_append]

theorem foldl_processFile_eq (files : List SourceFile) :
    ∀ st, files.foldl processFile st = streamFold st (declStream files) := by
  induction files with
  | nil => intro st; rfl
  | cons f rest ih =>
    intro st
    have hd : declStream (f :: rest) = fileDecls f ++ declStream rest := by
      simp [declStream]
    rw [List.foldl_cons, hd, streamFold_append]
    have hf : processFile st f = streamFold st (fileDecls f) := by
      unfold processFile fileDecls
      cases f.parsed with
      | none => rfl
      | some decls => exact foldl_processDecl_map decls f.code st
    rw [hf]
    exact ih _

theorem phase1_eq_streamFold (files : List SourceFile) :
    phase1 files = streamFold initState (declStream files) :=
  foldl_processFile_eq files initState

/-! ## How one step changes the three maps -/

theorem processDecl_maps_of_event_none (code : String) (st : AnalyzerState) (d : TypeDecl)
    (h : recordedEvent d = none) :
    (processDecl code st d).inheritance_map = st.inheritance_map ∧
    (processDecl code st d).children_map = st.children_map := by
  cases d with
  | classDecl name interfaceFlag ext cid =>
    cases interfaceFlag with
    | true => simp [processDecl]
    | false =>
      cases ext with
      | none => simp [processDecl, recordClass]
      | some s =>
        by_cases hs : s = ""
        · simp [processDecl, recordClass, hs]
        · simp [recordedEvent, hs] at h
  | recordDecl name cid => simp [recordedEvent] at h
  | otherDecl => simp [processDecl]

theorem processDecl_maps_of_event_some (code : String) (st : AnalyzerState) (d : TypeDecl)
    (n s : String) (h : recordedEvent d = some (n, s)) :
    (processDecl code st d).inheritance_map = dictInsert st.inheritance_map n s ∧
    (processDecl code st d).children_map = childAppend st.children_map s n := by
  cases d with
  | classDecl name interfaceFlag ext cid =>
    cases interfaceFlag with
    | true => simp [recordedEvent] at h
    | false =>
      cases ext with
      | none => simp [recordedEvent] at h
      | some s' =>
        by_cases hs : s' = ""
        · simp [recordedEvent, hs] at h
        · simp only [recordedEvent, hs, Bool.false_eq_true, if_false,
            Option.some.injEq, Prod.mk.injEq] at h
          obtain ⟨rfl, rfl⟩ := h
          simp [processDecl, recordClass, hs]
  | recordDecl name cid =>
    simp only [recordedEvent, Option.some.injEq, Prod.mk.injEq] at h
    obtain ⟨rfl, rfl⟩ := h
    have hrec : ¬ ("java.lang.Record" : String) = "" := by decide
    simp [processDecl, recordClass, hrec]
  | otherDecl => simp [recordedEvent] at h

theorem processDecl_class_info_none (code : String) (st : AnalyzerState) (d : TypeDecl)
    (h : declaredName d = none) :
    (processDecl code st d).class_info = st.class_info := by
  cases d with
  | classDecl name interfaceFlag ext cid =>
    cases interfaceFlag with
    | true => simp [processDecl]
    | false => simp [declaredName] at h
  | recordDecl name cid => simp [declaredName] at h
  | otherDecl => rfl

theorem processDecl_class_info_some (code : String) (st : AnalyzerState) (d : TypeDecl)
    (n : String) (r : ClassMetrics) (h : declaredName d = some n)
    (hr : buildDeclMetrics code d = some r) :
    (processDecl code st d).class_info = dictInsert st.class_info n r := by
  cases d with
  | classDecl name interfaceFlag ext cid =>
    cases interfaceFlag with
    | true => simp [declaredName] at h
    | false =>
      simp only [declaredName, Bool.false_eq_true, if_false, Option.some.injEq] at h
      simp only [buildDeclMetrics, Bool.false_eq_true, if_false, Option.some.injEq] at hr
      subst h
      subst hr
      show (recordClass code st name ext cid).class_info = _
      unfold recordClass
      cases ext with
      | none => rfl
      | some s => by_cases hs : s = "" <;> simp [hs]
  | recordDecl name cid =>
    simp only [declaredName, Option.some.injEq] at h
    simp only [buildDeclMetrics, Option.some.injEq] at hr
    subst h
    subst hr
    show (recordClass code st name (some "java.lang.Record") cid).class_info = _
    unfold recordClass
    have hrec : ¬ ("java.lang.Record" : String) = "" := by decide
    simp [hrec]
  | otherDecl => simp [declaredName] at h

theorem buildDeclMetrics_isSome (code : String) (d : TypeDecl) :
    (buildDeclMetrics code d).isSome = (declaredName d).isSome := by
  cases d with
  | classDecl name interfaceFlag ext cid =>
    cases interfaceFlag <;> simp [buildDeclMetrics, declaredName]
  | recordDecl name cid => rfl
  | otherDecl => rfl

theorem recordedEvent_name (d : TypeDecl) (n s : String)
    (h : recordedEvent d = some (n, s)) : declaredName d = some n := by
  cases d with
  | classDecl name interfaceFlag ext cid =>
    cases interfaceFlag with
    | true => simp [recordedEvent] at h
    | false =>
      cases ext with
      | none => simp [recordedEvent] at h
      | some s' =>
        by_cases hs : s' = ""
        · simp [recordedEvent, hs] at h
        · simp only [recordedEvent, hs, Bool.false_eq_true, if_false,
            Option.some.injEq, Prod.mk.injEq] at h
          simp [declaredName, h.1]
  | recordDecl name cid =>
    simp only [recordedEvent, Option.some.injEq, Prod.mk.injEq] at h
    simp [declaredName, h.1]
  | otherDecl => simp [recordedEvent] at h

/-! ## Final lookups as last-write views of the declaration stream -/

theorem streamFold_inh_lookup (l : List (String × TypeDecl)) :
    ∀ (st : AnalyzerState) (n : String),
      dictLookup (streamFold st l).inheritance_map n =
        match lastRecordedSuper l n with
        | some s => some s
        | none => dictLookup st.inheritance_map n := by
  induction l with
  | nil => intro st n; rfl
  | cons p rest ih =>
    intro st n
    rw [show streamFold st (p :: rest) = streamFold (processDecl p.1 st p.2) rest from rfl, ih]
    cases hrest : lastRecordedSuper rest n with
    | some s => simp [lastRecordedSuper, hrest]
    | none =>
      simp only [lastRecordedSuper, hrest]
      cases hev : recordedEvent p.2 with
      | none =>
        rw [(processDecl_maps_of_event_none p.1 st p.2 hev).1]
      | some q =>
        obtain ⟨m, s⟩ := q
        rw [(processDecl_maps_of_event_some p.1 st p.2 m s hev).1, dictLookup_insert]
        by_cases hmn : m = n
        · subst hmn; simp
        · simp [hmn]

theorem streamFold_class_info_lookup (l : List (String × TypeDecl)) :
    ∀ (st : AnalyzerState) (n : String),
      dictLookup (streamFold st l).class_info n =
        match lastClassMetrics l n with
        | some r => some r
        | none => dictLookup st.class_info n := by
  induction l with
  | nil => intro st n; rfl
  | cons p rest ih =>
    intro st n
    rw [show streamFold st (p :: rest) = streamFold (processDecl p.1 st p.2) rest from rfl, ih]
    cases hrest : lastClassMetrics rest n with
    | some r => simp [lastClassMetrics, hrest]
    | none =>
      simp only [lastClassMetrics, hrest]
      cases hdn : declaredName p.2 with
      | none =>
        rw [processDecl_class_info_none _ _ _ hdn]
        simp [hdn]
      | some m =>
        have hbs : (buildDeclMetrics p.1 p.2).isSome = true := by
          rw [buildDeclMetrics_isSome, hdn]; rfl
        obtain ⟨r, hr⟩ := Option.isSome_iff_exists.mp hbs
        rw [processDecl_class_info_some _ _ _ _ _ hdn hr, dictLookup_insert]
        by_cases hmn : m = n
        · subst hmn; simp [hdn, hr]
        · have hne : ¬ (declaredName p.2 = some n) := by simp [hdn, hmn]
          simp [hne, hmn]

theorem streamFold_children_mem (l : List (String × TypeDecl)) :
    ∀ (st : AnalyzerState) (C S : String),
      C ∈ childLookup (streamFold st l).children_map S ↔
        (C, S) ∈ recordedEvents l ∨ C ∈ childLookup st.children_map S := by
  induction l with
  | nil => intro st C S; simp [streamFold, recordedEvents]
  | cons p rest ih =>
    intro st C S
    rw [show streamFold st (p :: rest) = streamFold (processDecl p.1 st p.2) rest from rfl, ih]
    cases hev : recordedEvent p.2 with
    | none =>
      rw [(processDecl_maps_of_event_none p.1 st p.2 hev).2]
      simp [recordedEvents, List.filterMap_cons, hev]
    | some q =>
      obtain ⟨m, s⟩ := q
      rw [(processDecl_maps_of_event_some p.1 st p.2 m s hev).2, childLookup_append]
      simp only [recordedEvents, List.filterMap_cons, hev, List.mem_cons]
      by_cases hS : s = S
      · subst hS
        rw [if_pos rfl]
        constructor
        · rintro (h | hm)
          · exact Or.inl (Or.inr h)
          · rcases List.mem_append.mp hm with hc | hm1
            · exact Or.inr hc
            · have h1 : C = m := List.mem_singleton.mp hm1
              subst h1
              exact Or.inl (Or.inl rfl)
        · rintro ((heq | h) | hc)
          · have h1 : C = m := congrArg Prod.fst heq
            subst h1
            exact Or.inr (List.mem_append.mpr (Or.inr (List.mem_singleton.mpr rfl)))
          · exact Or.inl h
          · exact Or.inr (List.mem_append.mpr (Or.inl hc))
      · rw [if_neg hS]
        constructor
        · rintro (h | hc)
          · exact Or.inl (Or.inr h)
          · exact Or.inr hc
        · rintro ((heq | h) | hc)
          · exact absurd (congrArg Prod.snd heq).symm hS
          · exact Or.inl h
          · exact Or.inr hc

theorem streamFold_children_count (l : List (String × TypeDecl)) :
    ∀ (st : AnalyzerState) (C S : String),
      (childLookup (streamFold st l).children_map S).count C =
        (childLookup st.children_map S).count C + (recordedEvents l).count (C, S) := by
  induction l with
  | nil => intro st C S; simp [streamFold, recordedEvents]
  | cons p rest ih =>
    intro st C S
    rw [show streamFold st (p :: rest) = streamFold (processDecl p.1 st p.2) rest from rfl, ih]
    cases hev : recordedEvent p.2 with
    | none =>
      rw [(processDecl_maps_of_event_none p.1 st p.2 hev).2]
      simp [recordedEvents, List.filterMap_cons, hev]
    | some q =>
      obtain ⟨m, s⟩ := q
      rw [(processDecl_maps_of_event_some p.1 st p.2 m s hev).2, childLookup_append]
      simp only [recordedEvents, List.filterMap_cons, hev, List.count_cons, List.count_nil]
      by_cases hS : s = S
      · subst hS
        rw [if_pos rfl, List.count_append, List.count_cons, List.count_nil]
        by_cases hm : m = C
        · subst hm
          simp only [beq_self_eq_true, if_true]
          omega
        · have h1 : ¬ (m == C) = true := by simp [hm]
          have h2 : ¬ ((m, s) == (C, s)) = true := by simp [hm]
          simp only [h1, h2, Bool.false_eq_true, if_false]
          omega
      · rw [if_neg hS]
        have h2 : ¬ ((m, s) == (C, S)) = true := by
          simp only [beq_iff_eq, Prod.mk.injEq, not_and]
          exact fun _ h => hS h
        simp only [h2, Bool.false_eq_true, if_false]
        omega

/-! ## Characterizing the last-write views -/

theorem lastRecordedSuper_mem (l : List (String × TypeDecl)) (n s : String)
    (h : lastRecordedSuper l n = some s) :
    ∃ p ∈ l, recordedEvent p.2 = some (n, s) := by
  induction l with
  | nil => simp [lastRecordedSuper] at h
  | cons p rest ih =>
    rw [lastRecordedSuper] at h
    cases hrest : lastRecordedSuper rest n with
    | some s' =>
      simp only [hrest, Option.some.injEq] at h
      subst h
      obtain ⟨p', hp', he⟩ := ih hrest
      exact ⟨p', List.mem_cons_of_mem _ hp', he⟩
    | none =>
      cases hev : recordedEvent p.2 with
      | none => simp [hrest, hev] at h
      | some q =>
        obtain ⟨q1, q2⟩ := q
        simp only [hrest, hev] at h
        by_cases hq : q1 = n
        · rw [if_pos hq] at h
          obtain rfl : q2 = s := Option.some.inj h
          subst hq
          exact ⟨p, List.mem_cons_self _ _, hev⟩
        · rw [if_neg hq] at h
          simp at h

theorem lastRecordedSuper_isSome_iff (l : List (String × TypeDecl)) (n : String) :
    (lastRecordedSuper l n).isSome = true ↔
      ∃ p ∈ l, ∃ s, recordedEvent p.2 = some (n, s) := by
  induction l with
  | nil => simp [lastRecordedSuper]
  | cons p rest ih =>
    rw [lastRecordedSuper]
    cases hrest : lastRecordedSuper rest n with
    | some s' =>
      simp only [hrest, Option.isSome_some, true_iff]
      obtain ⟨p', hp', he⟩ := lastRecordedSuper_mem rest n s' hrest
      exact ⟨p', List.mem_cons_of_mem _ hp', s', he⟩
    | none =>
      cases hev : recordedEvent p.2 with
      | none =>
        simp only [hrest, hev, Option.isSome_none, Bool.false_eq_true, false_iff]
        rintro ⟨p', hp', s, he⟩
        rcases List.mem_cons.mp hp' with rfl | hp'
        · rw [hev] at he; simp at he
        · have hsome := ih.mpr ⟨p', hp', s, he⟩
          rw [hrest] at hsome
          simp at hsome
      | some q =>
        obtain ⟨q1, q2⟩ := q
        simp only [hrest, hev]
        by_cases hq : q1 = n
        · rw [if_pos hq]
          simp only [Option.isSome_some, true_iff]
          subst hq
          exact ⟨p, List.mem_cons_self _ _, q2, hev⟩
        · rw [if_neg hq]
          simp only [Option.isSome_none, Bool.false_eq_true, false_iff]
          rintro ⟨p', hp', s, he⟩
          rcases List.mem_cons.mp hp' with rfl | hp'
          · rw [hev] at he
            simp only [Option.some.injEq, Prod.mk.injEq] at he
            exact hq he.1
          · have hsome := ih.mpr ⟨p', hp', s, he⟩
            rw [hrest] at hsome
            simp at hsome

theorem lastClassMetrics_mem (l : List (String × TypeDecl)) (n : String) (r : ClassMetrics)
    (h : lastClassMetrics l n = some r) :
    ∃ p ∈ l, declaredName p.2 = some n ∧ buildDeclMetrics p.1 p.2 = some r := by
  induction l with
  | nil => simp [lastClassMetrics] at h
  | cons p rest ih =>
    rw [lastClassMetrics] at h
    cases hrest : lastClassMetrics rest n with
    | some r' =>
      simp only [hrest, Option.some.injEq] at h
      subst h
      obtain ⟨p', hp', hd, hb⟩ := ih hrest
      exact ⟨p', List.mem_cons_of_mem _ hp', hd, hb⟩
    | none =>
      simp only [hrest] at h
      by_cases hd : declaredName p.2 = some n
      · rw [if_pos hd] at h
        exact ⟨p, List.mem_cons_self _ _, hd, h⟩
      · rw [if_neg hd] at h
        simp at h

theorem lastClassMetrics_isSome_iff (l : List (String × TypeDecl)) (n : String) :
    (lastClassMetrics l n).isSome = true ↔ ∃ p ∈ l, declaredName p.2 = some n := by
  induction l with
  | nil => simp [lastClassMetrics]
  | cons p rest ih =>
    rw [lastClassMetrics]
    cases hrest : lastClassMetrics rest n with
    | some r =>
      simp only [hrest, Option.isSome_some, true_iff]
      obtain ⟨p', hp', hd, -⟩ := lastClassMetrics_mem rest n r hrest
      exact ⟨p', List.mem_cons_of_mem _ hp', hd⟩
    | none =>
      simp only [hrest]
      by_cases hd : declaredName p.2 = some n
      · rw [if_pos hd]
        have hbs : (buildDeclMetrics p.1 p.2).isSome = true := by
          rw [buildDeclMetrics_isSome, hd]; rfl
        rw [hbs]
        simp only [true_iff]
        exact ⟨p, List.mem_cons_self _ _, hd⟩
      · rw [if_neg hd]
        simp only [Option.isSome_none, Bool.false_eq_true, false_iff]
        rintro ⟨p', hp', hd'⟩
        rcases List.mem_cons.mp hp' with rfl | hp'
        · exact hd hd'
        · have hsome := ih.mpr ⟨p', hp', hd'⟩
          rw [hrest] at hsome
          simp at hsome

/-! ## Membership in the declaration stream -/

theorem mem_declStream (files : List SourceFile) (f : SourceFile) (decls : List TypeDecl)
    (d : TypeDecl) (hf : f ∈ files) (hp : f.parsed = some decls) (hd : d ∈ decls) :
    (f.code, d) ∈ declStream files := by
  unfold declStream
  rw [List.mem_flatten]
  refine ⟨fileDecls f, List.mem_map_of_mem _ hf, ?_⟩
  unfold fileDecls
  rw [hp]
  exact List.mem_map_of_mem _ hd

theorem declStream_mem_inv (files : List SourceFile) (p : String × TypeDecl)
    (h : p ∈ declStream files) :
    ∃ f ∈ files, ∃ decls : List TypeDecl, f.parsed = some decls ∧
      ∃ d ∈ decls, p = (f.code, d) := by
  unfold declStream at h
  rw [List.mem_flatten] at h
  obtain ⟨l, hl, hpl⟩ := h
  rw [List.mem_map] at hl
  obtain ⟨f, hf, rfl⟩ := hl
  unfold fileDecls at hpl
  cases hp : f.parsed with
  | none => rw [hp] at hpl; simp at hpl
  | some decls =>
    rw [hp] at hpl
    rw [List.mem_map] at hpl
    obtain ⟨d, hd, rfl⟩ := hpl
    exact ⟨f, hf, decls, hp, d, hd, rfl⟩

theorem dictLookup_map_isSome {α β : Type} (g : String × α → β)
    (l : List (String × α)) (n : String) :
    (dictLookup (l.map (fun p => (p.1, g p))) n).isSome = (dictLookup l n).isSome := by
  induction l with
  | nil => rfl
  | cons p rest ih =>
    obtain ⟨k, v⟩ := p
    simp only [List.map_cons, dictLookup]
    by_cases h : k = n <;> simp [h, ih]

theorem analyze_classes_isSome (fuel : Nat) (files : List SourceFile) (n : String) :
    (dictLookup (analyze_java_metrics fuel files).classes n).isSome =
      (dictLookup (phase1 files).class_info n).isSome := by
  unfold analyze_java_metrics
  exact dictLookup_map_isSome _ _ _

/-! ## C4: which superclass survives for a duplicated name -/

/-- C4 counterexample: the claim says the first recorded superclass for a
name is kept.  Processing `class X extends Y` and then `class X extends Z`
leaves `superclass_of(X) = Z`, not `Y`: the assignment
`inheritance_map[name] = superclass` overwrites. -/
theorem C4_counterexample :
    dictLookup (phase1 dupFilesC4).inheritance_map "X" = some "Z" ∧
    ¬ ((some "Z" : Option String) = some "Y") := by decide

/-- C4 amended: the inheritance entry of every name is the superclass
recorded by the LAST processed declaration of that name that carries a
truthy superclass (later declarations overwrite; a later declaration
without a truthy superclass leaves the entry unchanged). -/
theorem C4_last_write_wins :
    ∀ (files : List SourceFile) (n : String),
      dictLookup (phase1 files).inheritance_map n =
        lastRecordedSuper (declStream files) n := by
  intro files n
  rw [phase1_eq_streamFold, streamFold_inh_lookup]
  cases lastRecordedSuper (declStream files) n <;> rfl

/-! ## C3: consistency of the children mapping -/

theorem count_le_one_of_nodup {α : Type} [BEq α] [LawfulBEq α] (l : List α)
    (h : l.Nodup) (a : α) : l.count a ≤ 1 := by
  induction l with
  | nil => simp
  | cons x rest ih =>
    rw [List.count_cons]
    rcases List.nodup_cons.mp h with ⟨hx, hrest⟩
    by_cases hxa : x = a
    · subst hxa
      have h0 : rest.count x = 0 := List.count_eq_zero_of_not_mem hx
      simp [h0]
    · have hb : ¬ (x == a) = true := by simp [hxa]
      simp only [hb, Bool.false_eq_true, if_false]
      have := ih hrest
      omega

/-- C3 counterexample: with duplicate class names the two maps fall out of
sync.  After `class A extends B` and `class A extends C`, the name `A` is
still a member of `children_of(B)` although `superclass_of(A) = C`, so the
claimed equivalence fails as stated. -/
theorem C3_counterexample :
    ("A" ∈ childLookup (phase1 dupFilesC3).children_map "B") ∧
    dictLookup (phase1 dupFilesC3).inheritance_map "A" = some "C" ∧
    ¬ ((some "C" : Option String) = some "B") := by decide

/-- C3 amended: provided no class name is recorded twice into the
inheritance map during the run, the parse phase keeps both maps consistent:
`C ∈ children_of(S)` iff `superclass_of(C) = S`, and a member occurs
exactly once in `children_of(S)`, so NOC counts each child once. -/
theorem C3_children_consistent :
    ∀ files : List SourceFile,
      ((recordedEvents (declStream files)).map Prod.fst).Nodup →
      ∀ C S : String,
        (C ∈ childLookup (phase1 files).children_map S ↔
          dictLookup (phase1 files).inheritance_map C = some S) ∧
        (C ∈ childLookup (phase1 files).children_map S →
          (childLookup (phase1 files).children_map S).count C = 1) := by
  intro files hnd C S
  have hmem : C ∈ childLookup (phase1 files).children_map S ↔
      (C, S) ∈ recordedEvents (declStream files) := by
    rw [phase1_eq_streamFold, streamFold_children_mem]
    simp [initState, childLookup, dictLookup]
  have hcount : (childLookup (phase1 files).children_map S).count C =
      (recordedEvents (declStream files)).count (C, S) := by
    rw [phase1_eq_streamFold, streamFold_children_count]
    simp [initState, childLookup, dictLookup]
  constructor
  · constructor
    · intro h
      have hev : (C, S) ∈ recordedEvents (declStream files) := hmem.mp h
      have hex : (lastRecordedSuper (declStream files) C).isSome = true := by
        rw [lastRecordedSuper_isSome_iff]
        obtain ⟨p, hp, he⟩ := List.mem_filterMap.mp hev
        exact ⟨p, hp, S, he⟩
      obtain ⟨s', hs'⟩ := Option.isSome_iff_exists.mp hex
      obtain ⟨p', hp', he'⟩ := lastRecordedSuper_mem _ _ _ hs'
      have hev' : (C, s') ∈ recordedEvents (declStream files) :=
        List.mem_filterMap.mpr ⟨p', hp', he'⟩
      have hpair : (C, s') = (C, S) :=
        List.inj_on_of_nodup_map hnd hev' hev rfl
      have hss : s' = S := congrArg Prod.snd hpair
      subst hss
      rw [phase1_eq_streamFold, streamFold_inh_lookup, hs']
    · intro h
      rw [phase1_eq_streamFold, streamFold_inh_lookup] at h
      cases hls : lastRecordedSuper (declStream files) C with
      | none =>
        rw [hls] at h
        simp [initState, dictLookup] at h
      | some s' =>
        simp only [hls, Option.some.injEq] at h
        subst h
        obtain ⟨p', hp', he'⟩ := lastRecordedSuper_mem _ _ _ hls
        exact hmem.mpr (List.mem_filterMap.mpr ⟨p', hp', he'⟩)
  · intro h
    have hev : (C, S) ∈ recordedEvents (declStream files) := hmem.mp h
    have h1 : 0 < (recordedEvents (declStream files)).count (C, S) :=
      List.count_pos_iff.mpr hev
    have h2 : (recordedEvents (declStream files)).count (C, S) ≤ 1 :=
      count_le_one_of_nodup _ (List.Nodup.of_map _ hnd) (C, S)
    rw [hcount]
    omega

/-- C3 witness: in a run with the single declaration `class A extends B`,
the maps are consistent at `C = A`, `S = B`. -/
theorem C3_children_consistent_witness :
    ("A" ∈ childLookup (phase1 singleExtFiles).children_map "B" ↔
      dictLookup (phase1 singleExtFiles).inheritance_map "A" = some "B") ∧
    ("A" ∈ childLookup (phase1 singleExtFiles).children_map "B" →
      (childLookup (phase1 singleExtFiles).children_map "B").count "A" = 1) :=
  C3_children_consistent singleExtFiles (by decide) "A" "B"

/-! ## C7: per-file parse failures are local -/

/-- C7: a file whose parse fails is logged and skipped and the run goes on:
the emitted `classes` mapping still holds a record for every declaration
name of every successfully parsed file, and the run exits with status 0. -/
theorem C7_parse_failure_skipped :
    ∀ (fuel : Nat) (files : List SourceFile),
      (analyze_java_metrics fuel files).exit_status = 0 ∧
      (∀ f ∈ files, ∀ decls : List TypeDecl, f.parsed = some decls →
        ∀ d ∈ decls, ∀ n : String, declaredName d = some n →
          (dictLookup (analyze_java_metrics fuel files).classes n).isSome = true) := by
  intro fuel files
  refine ⟨rfl, ?_⟩
  intro f hf decls hp d hd n hn
  rw [analyze_classes_isSome, phase1_eq_streamFold, streamFold_class_info_lookup]
  have hex : (lastClassMetrics (declStream files) n).isSome = true := by
    rw [lastClassMetrics_isSome_iff]
    exact ⟨(f.code, d), mem_declStream files f decls d hf hp hd, hn⟩
  obtain ⟨r, hr⟩ := Option.isSome_iff_exists.mp hex
  rw [hr]
  rfl

/-- C7 witness: in a run over one unparsable file and one good file
declaring class `D`, the report still holds an entry for `D` and the exit
status is 0. -/
theorem C7_parse_failure_skipped_witness :
    (analyze_java_metrics 10 c7Files).exit_status = 0 ∧
    (dictLookup (analyze_java_metrics 10 c7Files).classes "D").isSome = true :=
  ⟨(C7_parse_failure_skipped 10 c7Files).1,
   (C7_parse_failure_skipped 10 c7Files).2 okFile (by decide)
     [TypeDecl.classDecl "D" false none emptyCid] (by decide)
     (TypeDecl.classDecl "D" false none emptyCid) (by decide) "D" (by decide)⟩

/-! ## C9: interfaces are skipped entirely -/

/-- C9: a top-level interface declaration (and any other unhandled
declaration kind) leaves the analyzer state untouched — no MetricRecord, no
inheritance or children edge — and every name of the emitted classes
mapping stems from a non-interface class declaration or a record
declaration of some successfully parsed file. -/
theorem C9_interfaces_skipped :
    (∀ (code : String) (st : AnalyzerState) (name : String)
        (ext : Option String) (cid : Cid),
      processDecl code st (TypeDecl.classDecl name true ext cid) = st ∧
      processDecl code st TypeDecl.otherDecl = st) ∧
    (∀ (fuel : Nat) (files : List SourceFile) (n : String),
      (dictLookup (analyze_java_metrics fuel files).classes n).isSome = true →
      ∃ f ∈ files, ∃ decls : List TypeDecl, f.parsed = some decls ∧
        ∃ d ∈ decls, declaredName d = some n) := by
  constructor
  · intro code st name ext cid
    exact ⟨rfl, rfl⟩
  · intro fuel files n h
    rw [analyze_classes_isSome, phase1_eq_streamFold, streamFold_class_info_lookup] at h
    cases hlm : lastClassMetrics (declStream files) n with
    | none =>
      rw [hlm] at h
      simp [initState, dictLookup] at h
    | some r =>
      have hex := (lastClassMetrics_isSome_iff (declStream files) n).mp (by rw [hlm]; rfl)
      obtain ⟨p, hp, hd⟩ := hex
      obtain ⟨f, hf, decls, hparse, d, hdd, rfl⟩ := declStream_mem_inv files p hp
      exact ⟨f, hf, decls, hparse, d, hdd, hd⟩

/-- C9 witness: the name `D` of the emitted mapping of a one-file run is
traced back to a processed declaration of that file. -/
theorem C9_interfaces_skipped_witness :
    ∃ f ∈ c7Files, ∃ decls : List TypeDecl, f.parsed = some decls ∧
      ∃ d ∈ decls, declaredName d = some "D" :=
  C9_interfaces_skipped.2 10 c7Files "D" (by decide)

/-! ## C10: records and the sentinel superclass -/

/-- C10 counterexample: the universally quantified claim fails when a later
class declaration reuses the record's name.  After `record N`, `class N
extends A`, `class A extends B`: the sentinel `java.lang.Record` has no
recorded superclass, yet DIT of `N` is 2, not 1, and the stored record of
`N` carries Superclass `A` instead of the sentinel. -/
theorem C10_counterexample :
    dictLookup (phase1 dupFilesC10).inheritance_map "java.lang.Record" = none ∧
    calculate_DIT 10 "N" (phase1 dupFilesC10).inheritance_map = some 2 ∧
    ¬ ((some 2 : Option Nat) = some 1) ∧
    (dictLookup (phase1 dupFilesC10).class_info "N").map (fun r => r.Superclass) =
      some (some "A") := by decide

/-- C10 amended: provided every processed declaration named `n` is a record
declaration, a record `n` of the project is recorded with Superclass
`java.lang.Record`, `n` appears in `children_of("java.lang.Record")`, its
inheritance entry is the sentinel, and when the sentinel has no recorded
superclass the DIT of `n` is exactly 1 (for any fuel of at least 2). -/
theorem C10_record_sentinel :
    ∀ (files : List SourceFile) (code : String) (n : String) (cid : Cid),
      (code, TypeDecl.recordDecl n cid) ∈ declStream files →
      (∀ p ∈ declStream files, declaredName p.2 = some n → isRecordNamed n p.2 = true) →
      ((dictLookup (phase1 files).class_info n).map (fun r => r.Superclass) =
        some (some "java.lang.Record")) ∧
      dictLookup (phase1 files).inheritance_map n = some "java.lang.Record" ∧
      n ∈ childLookup (phase1 files).children_map "java.lang.Record" ∧
      (dictLookup (phase1 files).inheritance_map "java.lang.Record" = none →
        ∀ fuel : Nat, 2 ≤ fuel →
          calculate_DIT fuel n (phase1 files).inheritance_map = some 1) := by
  intro files code n cid hmem hall
  have hevrec : recordedEvent (TypeDecl.recordDecl n cid) = some (n, "java.lang.Record") := rfl
  have hinh : dictLookup (phase1 files).inheritance_map n = some "java.lang.Record" := by
    rw [phase1_eq_streamFold, streamFold_inh_lookup]
    have hex : (lastRecordedSuper (declStream files) n).isSome = true := by
      rw [lastRecordedSuper_isSome_iff]
      exact ⟨_, hmem, "java.lang.Record", hevrec⟩
    obtain ⟨s', hs'⟩ := Option.isSome_iff_exists.mp hex
    obtain ⟨p', hp', he'⟩ := lastRecordedSuper_mem _ _ _ hs'
    have hd' : declaredName p'.2 = some n := recordedEvent_name _ _ _ he'
    have hr' : isRecordNamed n p'.2 = true := hall p' hp' hd'
    have hs'' : s' = "java.lang.Record" := by
      cases hp2 : p'.2 with
      | recordDecl m cid' =>
        rw [hp2] at he'
        simp only [recordedEvent, Option.some.injEq, Prod.mk.injEq] at he'
        exact he'.2.symm
      | classDecl a b c dd =>
        rw [hp2] at hr'
        simp [isRecordNamed] at hr'
      | otherDecl =>
        rw [hp2] at hr'
        simp [isRecordNamed] at hr'
    subst hs''
    rw [hs']
  refine ⟨?_, hinh, ?_, ?_⟩
  · rw [phase1_eq_streamFold, streamFold_class_info_lookup]
    have hex : (lastClassMetrics (declStream files) n).isSome = true := by
      rw [lastClassMetrics_isSome_iff]
      exact ⟨_, hmem, rfl⟩
    obtain ⟨r, hr⟩ := Option.isSome_iff_exists.mp hex
    obtain ⟨p', hp', hd', hb'⟩ := lastClassMetrics_mem _ _ _ hr
    have hrn : isRecordNamed n p'.2 = true := hall p' hp' hd'
    have hsup : r.Superclass = some "java.lang.Record" := by
      cases hp2 : p'.2 with
      | recordDecl m cid' =>
        rw [hp2] at hb'
        simp only [buildDeclMetrics, Option.some.injEq] at hb'
        rw [← hb']
        rfl
      | classDecl a b c dd =>
        rw [hp2] at hrn
        simp [isRecordNamed] at hrn
      | otherDecl =>
        rw [hp2] at hrn
        simp [isRecordNamed] at hrn
    rw [hr]
    simp [hsup]
  · rw [phase1_eq_streamFold, streamFold_children_mem]
    exact Or.inl (List.mem_filterMap.mpr ⟨_, hmem, hevrec⟩)
  · intro hnone fuel hfuel
    obtain ⟨k, rfl⟩ : ∃ k, fuel = k + 1 + 1 := ⟨fuel - 2, by omega⟩
    have hne : ¬ ("java.lang.Record" : String) = "" := by decide
    simp only [calculate_DIT, hinh, hne, if_false, hnone]
    rfl

/-- C10 witness: a run whose single file declares only the record `R`. -/
theorem C10_record_sentinel_witness :
    ((dictLookup (phase1 recFiles).class_info "R").map (fun r => r.Superclass) =
      some (some "java.lang.Record")) ∧
    dictLookup (phase1 recFiles).inheritance_map "R" = some "java.lang.Record" ∧
    "R" ∈ childLookup (phase1 recFiles).children_map "java.lang.Record" ∧
    calculate_DIT 5 "R" (phase1 recFiles).inheritance_map = some 1 := by
  have h := C10_record_sentinel recFiles "record R() \x7b\x7d" "R" emptyCid
    (by decide) (by decide)
  exact ⟨h.1, h.2.1, h.2.2.1, h.2.2.2 (by decide) 5 (by decide)⟩

end JavaAnalyzer
